import Mathlib

/-!
Verification of the speech-capture / signal-encoding / synthesis-dispatch
pipeline of the globalytix-app repository.

The definitions below are shallow embeddings of the TypeScript source:

* `audioBufferToWav` models
  `client/src/components/enhanced-speech-interface.tsx` lines 103-161
  (resample to 16 kHz by nearest neighbour, silence trimming, 44-byte
  header, 16-bit quantization).  JavaScript numbers are modelled as `ℚ`
  (all arithmetic relevant here is exact in doubles), `Math.round` as
  `jsRound`, the `DataView` writes by the fields of `WavResult`.
* `tts`, `ttsKey`, `lookupCache` model `client/src/lib/api.ts` lines
  93-116 (the caching text-to-speech front end); the remote provider is
  an oracle indexed by the running count of provider calls.
* `submit` / `finish` / `drain` model the concurrency limiter
  `createLimiter` of `client/src/lib/api.ts` lines 67-88 as an
  event-step machine (an explicit `running` list instruments the
  `active` counter).
* `escapeXml`, `ssmlSingle`, `ssmlBatch` model the server routes file
  (`registerRoutes`): `escapeXml` (lines 434-436), the `/api/tts-single`
  markup template (lines 398-403) and the `/api/tts` batch template
  (lines 328-330).
* `sttAuto` models the automatic-language branch of `/api/stt`
  (lines 175-264).
* `startRecording` / `resetToIdle` model the recording state machine of
  `enhanced-speech-interface.tsx` (lines 252-305, 331-340).
-/

/-- JavaScript `Math.round`: round half toward positive infinity. -/
def jsRound (q : ℚ) : ℤ := ⌊q + 1/2⌋

/-- The canonical output sample rate (`targetSampleRate = 16000`). -/
def targetSampleRate : ℕ := 16000

/-- Models `newLength = Math.round(buffer.length / ratio)` with
`ratio = buffer.sampleRate / 16000` (lines 105-106). -/
def newLength (sampleRate len : ℕ) : ℕ :=
  (jsRound ((len : ℚ) / ((sampleRate : ℚ) / (targetSampleRate : ℚ)))).toNat

/-- Models `sourceIndex = Math.round(i * ratio)` (lines 138, 145, 154). -/
def srcIdx (sampleRate i : ℕ) : ℕ :=
  (jsRound ((i : ℚ) * ((sampleRate : ℚ) / (targetSampleRate : ℚ)))).toNat

/-- Reads `channelData[sourceIndex] || 0`: out-of-range reads yield 0. -/
def sampleAt (data : List ℚ) (i : ℕ) : ℚ := (data.get? i).getD 0

/-- Tests `Math.abs(channelData[sourceIndex] || 0) > threshold` with the
silence threshold `0.01` (lines 133, 139, 146). -/
def isLoud (data : List ℚ) (sampleRate i : ℕ) : Bool :=
  decide ((1 : ℚ)/100 < |sampleAt data (srcIdx sampleRate i)|)

/-- The forward scan (lines 136-143): `start` is the first resampled
index whose source sample crosses the threshold, 0 when none does. -/
def trimStart (data : List ℚ) (sampleRate n : ℕ) : ℕ :=
  ((List.range n).find? (isLoud data sampleRate)).getD 0

/-- The backward scan (lines 144-150): `end` is the last resampled index
whose source sample crosses the threshold, `n - 1` when none does
(`-1` when `n = 0`, as in JavaScript, hence the `ℤ` codomain). -/
def trimEnd (data : List ℚ) (sampleRate n : ℕ) : ℤ :=
  match (List.range n).reverse.find? (isLoud data sampleRate) with
  | some i => (i : ℤ)
  | none => (n : ℤ) - 1

/-- Truncation toward zero, the conversion `setInt16` applies to its
numeric argument. -/
def ratTrunc (q : ℚ) : ℤ := if 0 ≤ q then ⌊q⌋ else -⌊-q⌋

/-- One output sample (line 155-156): clip to [-1,1], scale negatives by
0x8000 and non-negatives by 0x7FFF. -/
def quantize (q : ℚ) : ℤ :=
  let s := max (-1 : ℚ) (min 1 q)
  if s < 0 then ratTrunc (s * 32768) else ratTrunc (s * 32767)

/-- The observable output of `audioBufferToWav`: the header fields the
claims speak about, the trimming range, and the 16-bit samples written
after the header. -/
structure WavResult where
  declaredRate : ℕ
  declaredDataBytes : ℕ
  riffSize : ℕ
  bufferBytes : ℕ
  start : ℕ
  endIdx : ℤ
  samples : List ℤ
  deriving DecidableEq

/-- Models `audioBufferToWav` (lines 103-161) on a buffer with sample
rate `sampleRate` whose channel 0 is `data`. -/
def audioBufferToWav (sampleRate : ℕ) (data : List ℚ) : WavResult :=
  let n := newLength sampleRate data.length
  let s := trimStart data sampleRate n
  let e := trimEnd data sampleRate n
  { declaredRate := targetSampleRate
    declaredDataBytes := n * 2
    riffSize := 36 + n * 2
    bufferBytes := 44 + n * 2
    start := s
    endIdx := e
    samples := (List.range' s (e - s + 1).toNat).map
      (fun i => quantize (sampleAt data (srcIdx sampleRate i))) }

/-- Audio bytes returned by the synthesis provider. -/
def Blob := List ℕ
deriving DecidableEq

/-- The synthesis cache key (api.ts line 96):
`key = locale + ":" + voice + ":" + text`. -/
def ttsKey (text voice locale : String) : String :=
  locale ++ ":" ++ voice ++ ":" ++ text

/-- Models `audioCache.has` / `audioCache.get` (api.ts lines 93,
98-100) on an association-list model of the `Map`. -/
def lookupCache (cache : List (String × Blob)) (k : String) : Option Blob :=
  (cache.find? (fun p => p.1 == k)).map (fun p => p.2)

/-- The process-wide state the `tts` front end mutates: the cache and
the number of provider calls issued so far (instrumentation for the
claims counting network calls). -/
structure TtsState where
  cache : List (String × Blob)
  calls : ℕ
  deriving DecidableEq

/-- Models `tts(text, voice, locale)` (api.ts lines 95-116).  The remote
provider is an oracle mapping the index of the call to `some` audio
(HTTP ok) or `none` (non-ok / rejection, which the code turns into a
thrown error before anything is cached). -/
def tts (provider : ℕ → Option Blob) (st : TtsState)
    (text voice locale : String) : Except Unit Blob × TtsState :=
  let key := ttsKey text voice locale
  match lookupCache st.cache key with
  | some b => (Except.ok b, st)
  | none =>
    match provider st.calls with
    | some b => (Except.ok b, ⟨(key, b) :: st.cache, st.calls + 1⟩)
    | none => (Except.error (), ⟨st.cache, st.calls + 1⟩)

/-- State of `createLimiter`'s closure (api.ts lines 67-88): `active`
is the counter, `queue` the pending thunks (by task id), `running`
instruments which tasks hold a slot, `started` the order in which tasks
began executing, `results` the (task, succeeded?) completions. -/
structure LimState where
  active : ℕ
  running : List ℕ
  queue : List ℕ
  started : List ℕ
  results : List (ℕ × Bool)
  deriving DecidableEq

/-- The limiter state at creation: counter 0, empty queue. -/
def limInit : LimState := ⟨0, [], [], [], []⟩

/-- Models `run(fn)` (api.ts lines 71-85): execute at once when
`active < limit` (incrementing `active`), else append to the queue. -/
def submit (limit : ℕ) (s : LimState) (t : ℕ) : LimState :=
  if s.active < limit then
    { s with active := s.active + 1, running := s.running ++ [t],
             started := s.started ++ [t] }
  else
    { s with queue := s.queue ++ [t] }

/-- A running task `t` settles with outcome `ok` (resolve or reject);
the `finally` block (api.ts lines 78-81) decrements `active` and, when
the queue is non-empty, shifts its head and executes it (which
re-increments `active`) — identically for success and failure. -/
def finish (s : LimState) (t : ℕ) (ok : Bool) : LimState :=
  match s.queue with
  | [] =>
    { s with active := s.active - 1, running := s.running.erase t,
             results := s.results ++ [(t, ok)] }
  | q :: qs =>
    { s with active := s.active - 1 + 1, running := s.running.erase t ++ [q],
             queue := qs, started := s.started ++ [q],
             results := s.results ++ [(t, ok)] }

/-- Run the limiter to completion: repeatedly settle the
longest-running task (successfully), `fuel` bounding the number of
steps. -/
def drain (fuel : ℕ) (s : LimState) : LimState :=
  match fuel, s.running with
  | 0, _ => s
  | _, [] => s
  | f + 1, t :: _ => drain f (finish s t true)

/-- The inductive invariant of the limiter: the active counter counts
the running tasks, never exceeds the limit, and a non-empty queue means
every slot is taken. -/
def limInv (limit : ℕ) (s : LimState) : Prop :=
  s.active = s.running.length ∧ s.active ≤ limit ∧
    (s.queue ≠ [] → s.active = limit)

/-- Models `s.replace(/c/g, rep)` as a character-by-character
substitution. -/
def replaceAll (c : Char) (rep : List Char) : List Char → List Char
  | [] => []
  | x :: xs => (if x = c then rep else [x]) ++ replaceAll c rep xs

/-- Models `escapeXml` (routes file lines 434-436): replace `&`, then `<`,
then `>` by their entities, in that order. -/
def escapeXml (s : List Char) : List Char :=
  replaceAll '>' "&gt;".toList
    (replaceAll '<' "&lt;".toList
      (replaceAll '&' "&amp;".toList s))

/-- The per-character escape `escapeXml` amounts to. -/
def escChar (c : Char) : List Char :=
  if c = '&' then "&amp;".toList
  else if c = '<' then "&lt;".toList
  else if c = '>' then "&gt;".toList
  else [c]

/-- Every ampersand in the list starts one of the three entities
`escapeXml` produces; with the absence of raw `<` and `>` this is what
well-formedness of the markup document asks of a text node. -/
def ampOk : List Char → Bool
  | [] => true
  | c :: rest =>
    (if c = '&' then
      (rest.take 4 == "amp;".toList || rest.take 3 == "lt;".toList ||
        rest.take 3 == "gt;".toList)
    else true) && ampOk rest

/-- The single-quote character the markup templates use. -/
def quoteCh : Char := Char.ofNat 39

/-- Everything of the `/api/tts-single` template (lines 398-403) before
the interpolated text (whitespace elided). -/
def ssmlSinglePre (locale voice : List Char) : List Char :=
  "<speak version=".toList ++ [quoteCh] ++ "1.0".toList ++ [quoteCh] ++
    " xml:lang=".toList ++ [quoteCh] ++ locale ++ [quoteCh] ++ "><voice name=".toList ++
    [quoteCh] ++ voice ++ [quoteCh] ++ "><prosody rate=".toList ++ [quoteCh] ++
    "-10%".toList ++ [quoteCh] ++ ">".toList

/-- Everything of the `/api/tts-single` template after the interpolated
text. -/
def ssmlSinglePost : List Char := "</prosody></voice></speak>".toList

/-- The `/api/tts-single` markup document: the caller text is embedded
through `escapeXml` (line 401). -/
def ssmlSingle (locale voice text : List Char) : List Char :=
  ssmlSinglePre locale voice ++ escapeXml text ++ ssmlSinglePost

/-- Everything of the `/api/tts` batch template (lines 328-330) before
the interpolated text (whitespace elided). -/
def ssmlBatchPre (lang voice : List Char) : List Char :=
  "<speak version=".toList ++ [quoteCh] ++ "1.0".toList ++ [quoteCh] ++
    " xml:lang=".toList ++ [quoteCh] ++ lang ++ [quoteCh] ++ "><voice name=".toList ++
    [quoteCh] ++ voice ++ [quoteCh] ++ ">".toList

/-- Everything of the `/api/tts` batch template after the interpolated
text. -/
def ssmlBatchPost : List Char := "</voice></speak>".toList

/-- The `/api/tts` batch markup document: `item.text` is interpolated
verbatim (line 329), with no escaping. -/
def ssmlBatch (lang voice text : List Char) : List Char :=
  ssmlBatchPre lang voice ++ text ++ ssmlBatchPost

/-- The language-code expansion table of `/api/stt` (lines 230-244). -/
def langMap : List (String × String) :=
  [("es", "es-ES"), ("fr", "fr-FR"), ("ar", "ar-SA"), ("fa", "fa-IR"),
   ("ru", "ru-RU"), ("zh", "zh-CN"), ("it", "it-IT"), ("pt", "pt-PT"),
   ("nl", "nl-NL"), ("tr", "tr-TR"), ("da", "da-DK"), ("lv", "lv-LV"),
   ("en", "en-US")]

/-- Models `langMap[detectedCode] || code-CODE.toUpperCase()`
(line 247). -/
def expandLocale (code : String) : String :=
  match (langMap.find? (fun p => p.1 == code)).map (fun p => p.2) with
  | some loc => loc
  | none => code ++ "-" ++ code.toUpper

/-- The bootstrap recognition tag substituted for the sentinel `auto`
(line 178). -/
def bootstrapTag : String := "en-US"

/-- What an execution of the `language === "auto"` branch of `/api/stt`
looks like from outside: the tag sent to the recognizer, whether the
identification call was issued, and the `detectedLanguage` of the
response. -/
structure SttAutoOutcome where
  recognitionLang : String
  detectCalled : Bool
  detectedLanguage : String
  deriving DecidableEq

/-- Models the `auto` branch of `/api/stt` (lines 175-264) for a successful
recognition with a non-empty transcript.  `detectResult` is the outcome
of the language-identification call: `some code` when the provider
answered with a language, `none` when the call failed or carried no
language (in the code `actualDetectedLang` then keeps its initial value
`finalLanguage`, lines 205, 250-256). -/
def sttAuto (detectResult : Option String) : SttAutoOutcome :=
  { recognitionLang := bootstrapTag
    detectCalled := true
    detectedLanguage :=
      match detectResult with
      | some code => expandLocale code
      | none => bootstrapTag }

/-- The recording-session states of `enhanced-speech-interface.tsx`
(line 13). -/
inductive RecState
  | idle
  | listening
  | translating
  | done
  | error
  deriving DecidableEq

/-- Models `startRecording` (lines 252-298): an early return when the state is
not `idle`; otherwise `listening` when microphone access is granted and
`error` when it is denied. -/
def startRecording (s : RecState) (granted : Bool) : RecState :=
  if s ≠ RecState.idle then s
  else if granted then RecState.listening
  else RecState.error

/-- Models `resetToIdle` (lines 331-340), the New Recording control. -/
def resetToIdle (_ : RecState) : RecState := RecState.idle

/-- An oracle for the key-collision scenario: the provider would answer
the first call with one audio blob and later calls with another. -/
def oracleA : ℕ → Option Blob := fun n => if n = 0 then some [1, 2] else some [9]

/-- Evaluation helper: `Int.toNat` on a numeral. -/
theorem intToNat_ofNat (n : ℕ) [n.AtLeastTwo] :
    (Int.toNat (no_index (OfNat.ofNat n))) = OfNat.ofNat n := rfl

/-- The backward scan never selects an index beyond `n - 1`. -/
theorem trimEnd_le (data : List ℚ) (sampleRate n : ℕ) :
    trimEnd data sampleRate n ≤ (n : ℤ) - 1 := by
  unfold trimEnd
  split
  case _ i h =>
    have hi : i ∈ (List.range n).reverse := List.mem_of_find?_eq_some h
    rw [List.mem_reverse, List.mem_range] at hi
    omega
  case _ => exact le_refl _

/-- At most `newLength` samples are written after the header. -/
theorem samples_length_le (sampleRate : ℕ) (data : List ℚ) :
    (audioBufferToWav sampleRate data).samples.length
      ≤ newLength sampleRate data.length := by
  have he := trimEnd_le data sampleRate (newLength sampleRate data.length)
  simp only [audioBufferToWav, List.length_map, List.length_range']
  omega

/-- C1 (amended): the header's data-length field holds `newLength * 2` —
the full resampled length before trimming — which is exactly the size of
the sample region allocated after the 44-byte header; the samples the
write loop emits occupy at most that many bytes, with equality exactly
when the trim range covers everything (`start = 0` and
`end = newLength - 1`).  The claim's equality with the retained-sample
byte count `(end - start + 1) * 2` holds only in that no-trim case. -/
theorem C1_header_bytes (sampleRate : ℕ) (data : List ℚ) :
    (audioBufferToWav sampleRate data).declaredDataBytes
        = newLength sampleRate data.length * 2 ∧
    (audioBufferToWav sampleRate data).bufferBytes
        = 44 + newLength sampleRate data.length * 2 ∧
    (audioBufferToWav sampleRate data).samples.length * 2
        ≤ (audioBufferToWav sampleRate data).declaredDataBytes ∧
    ((audioBufferToWav sampleRate data).start = 0 ∧
      (audioBufferToWav sampleRate data).endIdx
          = (newLength sampleRate data.length : ℤ) - 1 →
      (audioBufferToWav sampleRate data).samples.length * 2
          = (audioBufferToWav sampleRate data).declaredDataBytes) := by
  refine ⟨rfl, rfl, ?_, ?_⟩
  · have := samples_length_le sampleRate data
    simp only [audioBufferToWav] at this ⊢
    omega
  · rintro ⟨hs, he⟩
    simp only [audioBufferToWav, List.length_map, List.length_range'] at hs he ⊢
    rw [hs, he]
    omega

/-- C1 counterexample: a 16 kHz buffer `[0, 1/2, 0, 0]` trims to the
single sample at index 1, so 2 bytes of samples are written while the
header still declares `newLength * 2 = 8` bytes. -/
theorem C1_ce :
    (audioBufferToWav 16000 [0, 1/2, 0, 0]).declaredDataBytes
      ≠ (audioBufferToWav 16000 [0, 1/2, 0, 0]).samples.length * 2 := by
  norm_num +decide [audioBufferToWav, newLength, trimStart, trimEnd, List.range_succ,
    List.find?, isLoud, sampleAt, srcIdx, jsRound, targetSampleRate, lt_abs,
    intToNat_ofNat, quantize, ratTrunc, List.range']

/-- C1 witness: on the untrimmed buffer `[1, 1]` the written sample
bytes equal the declared data length. -/
theorem C1_witness :
    (audioBufferToWav 16000 [1, 1]).samples.length * 2
      = (audioBufferToWav 16000 [1, 1]).declaredDataBytes :=
  (C1_header_bytes 16000 [1, 1]).2.2.2 (by
    constructor
    · norm_num +decide [audioBufferToWav, newLength, trimStart, trimEnd, List.range_succ,
        List.find?, isLoud, sampleAt, srcIdx, jsRound, targetSampleRate, lt_abs,
        intToNat_ofNat]
    · norm_num +decide [audioBufferToWav, newLength, trimStart, trimEnd, List.range_succ,
        List.find?, isLoud, sampleAt, srcIdx, jsRound, targetSampleRate, lt_abs,
        intToNat_ofNat])

/-- C2 (amended): the output always declares the canonical rate 16000,
and the output duration `newLength / 16000` exceeds the input duration
`length / rate` by at most half an output sample period (1/32000 s);
because `Math.round` can round up, the strict "never exceeds" of the
claim fails. -/
theorem C2_rate_duration (sampleRate : ℕ) (data : List ℚ) (h : 0 < sampleRate) :
    (audioBufferToWav sampleRate data).declaredRate = 16000 ∧
    (newLength sampleRate data.length : ℚ) / 16000
      ≤ (data.length : ℚ) / (sampleRate : ℚ) + 1 / 32000 := by
  refine ⟨rfl, ?_⟩
  have hr : (sampleRate : ℚ) ≠ 0 := by positivity
  set x : ℚ := (data.length : ℚ) / ((sampleRate : ℚ) / (targetSampleRate : ℚ)) with hx
  have hx0 : 0 ≤ x := by
    rw [hx]
    positivity
  have hfl : (0 : ℤ) ≤ ⌊x + 1/2⌋ := by
    apply Int.le_floor.mpr
    push_cast
    linarith
  have hnl : (newLength sampleRate data.length : ℚ) ≤ x + 1/2 := by
    unfold newLength jsRound
    rw [← hx]
    have hcast : ((⌊x + 1/2⌋.toNat : ℕ) : ℚ) = ((⌊x + 1/2⌋ : ℤ) : ℚ) := by
      exact_mod_cast congrArg (fun z : ℤ => (z : ℚ)) (Int.toNat_of_nonneg hfl)
    rw [hcast]
    exact Int.floor_le _
  have hxval : x / 16000 = (data.length : ℚ) / (sampleRate : ℚ) := by
    rw [hx]
    unfold targetSampleRate
    field_simp
    ring
  calc (newLength sampleRate data.length : ℚ) / 16000 ≤ (x + 1/2) / 16000 := by
        apply div_le_div_of_nonneg_right hnl
        norm_num
    _ = x / 16000 + 1 / 32000 := by ring
    _ = (data.length : ℚ) / (sampleRate : ℚ) + 1 / 32000 := by rw [hxval]

/-- C2 counterexample: a 1-sample buffer at native rate 32000 resamples
to `round(1/2) = 1` output sample, and `1/16000 > 1/32000`: the output
duration exceeds the input duration. -/
theorem C2_ce :
    (audioBufferToWav 32000 [0]).declaredRate = 16000 ∧
    ¬ ((newLength 32000 1 : ℚ) / 16000 ≤ (1 : ℚ) / 32000) := by
  constructor
  · rfl
  · norm_num [newLength, jsRound, targetSampleRate]

/-- C2 witness: the amended bound instantiated at rate 32000 and the
1-sample buffer. -/
theorem C2_witness :
    (audioBufferToWav 32000 [0]).declaredRate = 16000 ∧
    (newLength 32000 ([(0 : ℚ)]).length : ℚ) / 16000
      ≤ (([(0 : ℚ)]).length : ℚ) / (32000 : ℚ) + 1 / 32000 :=
  C2_rate_duration 32000 [0] (by norm_num)

/-- On an all-quiet buffer the threshold test is false everywhere. -/
theorem isLoud_eq_false_of_silent (data : List ℚ) (sampleRate i : ℕ)
    (hsil : ∀ q ∈ data, |q| ≤ 1/100) :
    isLoud data sampleRate i = false := by
  unfold isLoud
  rw [decide_eq_false_iff_not, not_lt]
  unfold sampleAt
  cases hg : data.get? (srcIdx sampleRate i) with
  | none => simp
  | some q =>
    simp only [Option.getD_some]
    exact hsil q (List.get?_mem hg)

/-- C3 (amended): on a buffer whose samples all stay within the 0.01
threshold the scans fall back to `start = 0`, `end = newLength - 1`, all
`newLength` resampled samples are written and no error is possible; the
sample data is non-empty provided `newLength ≥ 1` — for very short
buffers (e.g. one sample at 48 kHz) `newLength = round(len/ratio) = 0`
and the sample data is empty, contrary to the claim. -/
theorem C3_silent (sampleRate : ℕ) (data : List ℚ)
    (_hne : data ≠ []) (hsil : ∀ q ∈ data, |q| ≤ 1/100) :
    (audioBufferToWav sampleRate data).start = 0 ∧
    (audioBufferToWav sampleRate data).endIdx
        = (newLength sampleRate data.length : ℤ) - 1 ∧
    (audioBufferToWav sampleRate data).samples.length
        = newLength sampleRate data.length ∧
    (1 ≤ newLength sampleRate data.length →
      (audioBufferToWav sampleRate data).samples ≠ []) := by
  have hfind : ∀ l : List ℕ, l.find? (isLoud data sampleRate) = none := by
    intro l
    rw [List.find?_eq_none]
    intro i _
    simp [isLoud_eq_false_of_silent data sampleRate i hsil]
  have hstart : (audioBufferToWav sampleRate data).start = 0 := by
    simp only [audioBufferToWav, trimStart, hfind, Option.getD_none]
  have hend : (audioBufferToWav sampleRate data).endIdx
      = (newLength sampleRate data.length : ℤ) - 1 := by
    simp only [audioBufferToWav, trimEnd, hfind]
  have hlen : (audioBufferToWav sampleRate data).samples.length
      = newLength sampleRate data.length := by
    simp only [audioBufferToWav, trimEnd, trimStart, hfind, Option.getD_none,
      List.length_map, List.length_range']
    omega
  refine ⟨hstart, hend, hlen, fun h1 => ?_⟩
  rw [← List.length_pos, hlen]
  omega

/-- C3 counterexample: the silent one-sample buffer `[0]` at 48 kHz is
non-empty, yet the encoder emits no sample data at all
(`newLength = round(1/3) = 0`). -/
theorem C3_ce :
    ([(0 : ℚ)] ≠ []) ∧ (∀ q ∈ [(0 : ℚ)], |q| ≤ 1/100) ∧
      (audioBufferToWav 48000 [0]).samples = [] := by
  refine ⟨by simp, by intro q hq; simp at hq; simp [hq], ?_⟩
  norm_num +decide [audioBufferToWav, newLength, trimStart, trimEnd, List.range_succ,
    List.find?, isLoud, sampleAt, srcIdx, jsRound, targetSampleRate, lt_abs,
    intToNat_ofNat, quantize, ratTrunc, List.range']

/-- C3 witness: a silent two-sample buffer at 16 kHz keeps `start = 0`
and produces non-empty output. -/
theorem C3_witness :
    (audioBufferToWav 16000 [0, 0]).start = 0 ∧
    (audioBufferToWav 16000 [0, 0]).samples ≠ [] := by
  have h := C3_silent 16000 [0, 0] (by simp)
    (by intro q hq; simp at hq; simp [hq])
  refine ⟨h.1, h.2.2.2 ?_⟩
  norm_num [newLength, jsRound, targetSampleRate]

/-- A fresh cache entry is found by its own key. -/
theorem lookupCache_cons_self (cache : List (String × Blob)) (k : String) (b : Blob) :
    lookupCache ((k, b) :: cache) k = some b := by
  simp [lookupCache, List.find?]

/-- C4: when the key is not yet cached and the provider answers the
first call, `tts` returns that audio and caches it, and the second call
with identical arguments is served from the cache — the provider-call
counter stays at one and both results are the identical blob. -/
theorem C4_cache_hit (provider : ℕ → Option Blob) (st : TtsState)
    (text voice locale : String) (b : Blob)
    (hmiss : lookupCache st.cache (ttsKey text voice locale) = none)
    (hok : provider st.calls = some b) :
    (tts provider st text voice locale).1 = Except.ok b ∧
    (tts provider st text voice locale).2.calls = st.calls + 1 ∧
    (tts provider (tts provider st text voice locale).2 text voice locale).1
        = Except.ok b ∧
    (tts provider (tts provider st text voice locale).2 text voice locale).2.calls
        = st.calls + 1 := by
  simp only [tts, hmiss, hok, lookupCache_cons_self]
  exact ⟨trivial, trivial, trivial, trivial⟩

/-- C4 witness: two identical calls from an empty cache make exactly one
provider call and both return the provider's blob. -/
theorem C4_witness :
    (tts (fun _ => some [7]) ⟨[], 0⟩ "hello" "en-US-JennyNeural" "en-US").1
        = Except.ok [7] ∧
    (tts (fun _ => some [7]) ⟨[], 0⟩ "hello" "en-US-JennyNeural" "en-US").2.calls = 1 ∧
    (tts (fun _ => some [7])
        (tts (fun _ => some [7]) ⟨[], 0⟩ "hello" "en-US-JennyNeural" "en-US").2
        "hello" "en-US-JennyNeural" "en-US").1 = Except.ok [7] ∧
    (tts (fun _ => some [7])
        (tts (fun _ => some [7]) ⟨[], 0⟩ "hello" "en-US-JennyNeural" "en-US").2
        "hello" "en-US-JennyNeural" "en-US").2.calls = 1 :=
  C4_cache_hit (fun _ => some [7]) ⟨[], 0⟩ "hello" "en-US-JennyNeural" "en-US" [7]
    rfl rfl

/-- C5: a failed synthesis caches nothing and surfaces the error only as
that call's result, and a task settling in the limiter behaves
identically whether it succeeded or failed — in particular the head of
the queue still begins execution. -/
theorem C5_failure (provider : ℕ → Option Blob) (st : TtsState)
    (text voice locale : String) (s : LimState) (t q : ℕ) (qs : List ℕ) (ok : Bool)
    (hmiss : lookupCache st.cache (ttsKey text voice locale) = none)
    (hfail : provider st.calls = none)
    (hq : s.queue = q :: qs) :
    (tts provider st text voice locale).1 = Except.error () ∧
    (tts provider st text voice locale).2.cache = st.cache ∧
    (finish s t ok).started = s.started ++ [q] ∧
    (finish s t ok).queue = qs ∧
    (finish s t ok).running = (finish s t (!ok)).running ∧
    (finish s t ok).started = (finish s t (!ok)).started ∧
    (finish s t ok).queue = (finish s t (!ok)).queue ∧
    (finish s t ok).active = (finish s t (!ok)).active := by
  simp [tts, hmiss, hfail, finish, hq]

/-- C5 witness: a concrete failing call leaves the cache empty, and a
failing task's settlement starts the queued task 8. -/
theorem C5_witness :
    (tts (fun _ => none) ⟨[], 0⟩ "hi" "v" "en").1 = Except.error () ∧
    (tts (fun _ => none) ⟨[], 0⟩ "hi" "v" "en").2.cache = [] ∧
    (finish ⟨3, [1, 2, 5], [8, 9], [1, 2, 5], []⟩ 2 false).started
        = [1, 2, 5] ++ [8] ∧
    (finish ⟨3, [1, 2, 5], [8, 9], [1, 2, 5], []⟩ 2 false).queue = [9] := by
  have h := C5_failure (fun _ => none) ⟨[], 0⟩ "hi" "v" "en"
    ⟨3, [1, 2, 5], [8, 9], [1, 2, 5], []⟩ 2 8 [9] false rfl rfl rfl
  exact ⟨h.1, h.2.1, h.2.2.1, h.2.2.2.1⟩

/-- C10: the colon-joined cache key is not injective — the distinct
triples (text "t", voice "v:x", locale "l") and (text "t", voice "x",
locale "l:v") share the key "l:v:x:t", so after synthesizing the first,
a call for the second is served the first's cached audio with no
provider contact (the call counter stays 1, although the provider would
have answered a different blob). -/
theorem C10_key_collision :
    ttsKey "t" "v:x" "l" = ttsKey "t" "x" "l:v" ∧
    (("t", "v:x", "l") : String × String × String) ≠ ("t", "x", "l:v") ∧
    (tts oracleA ⟨[], 0⟩ "t" "v:x" "l").1 = Except.ok [1, 2] ∧
    (tts oracleA (tts oracleA ⟨[], 0⟩ "t" "v:x" "l").2 "t" "x" "l:v").1
        = Except.ok [1, 2] ∧
    (tts oracleA (tts oracleA ⟨[], 0⟩ "t" "v:x" "l").2 "t" "x" "l:v").2.calls
        = 1 := by
  refine ⟨rfl, by decide, rfl, rfl, rfl⟩

/-- Submission preserves the limiter invariant. -/
theorem submit_inv (limit : ℕ) (s : LimState) (t : ℕ) (h : limInv limit s) :
    limInv limit (submit limit s t) := by
  obtain ⟨h1, h2, h3⟩ := h
  unfold submit limInv
  split
  case isTrue hlt =>
    refine ⟨?_, ?_, ?_⟩
    · show s.active + 1 = (s.running ++ [t]).length
      rw [List.length_append]
      simp [h1]
    · show s.active + 1 ≤ limit
      omega
    · intro hq
      exact absurd (h3 hq) (by omega)
  case isFalse hge =>
    exact ⟨h1, h2, fun _ => by show s.active = limit; omega⟩

/-- Settlement of a running task preserves the limiter invariant. -/
theorem finish_inv (limit : ℕ) (s : LimState) (t : ℕ) (ok : Bool)
    (h : limInv limit s) (ht : t ∈ s.running) :
    limInv limit (finish s t ok) := by
  obtain ⟨h1, h2, h3⟩ := h
  have herase : (s.running.erase t).length = s.running.length - 1 :=
    List.length_erase_of_mem ht
  have hpos : 0 < s.running.length := List.length_pos.mpr (List.ne_nil_of_mem ht)
  unfold finish limInv
  split
  case _ hq =>
    refine ⟨?_, ?_, ?_⟩
    · show s.active - 1 = (s.running.erase t).length
      rw [herase]
      omega
    · show s.active - 1 ≤ limit
      omega
    · intro hc
      exact absurd hq hc
  case _ q qs hq =>
    have hfull : s.active = limit := h3 (by rw [hq]; simp)
    refine ⟨?_, ?_, fun _ => ?_⟩
    · show s.active - 1 + 1 = (s.running.erase t ++ [q]).length
      rw [List.length_append, herase]
      simp
      omega
    · show s.active - 1 + 1 ≤ limit
      omega
    · show s.active - 1 + 1 = limit
      omega

/-- With all slots taken, further submissions only queue, in order. -/
theorem foldl_submit_full (limit : ℕ) (ts : List ℕ) (s : LimState)
    (h : ¬ s.active < limit) :
    ts.foldl (submit limit) s = { s with queue := s.queue ++ ts } := by
  induction ts generalizing s with
  | nil => simp
  | cons t ts ih =>
    have hstep : submit limit s t = { s with queue := s.queue ++ [t] } := by
      unfold submit
      rw [if_neg h]
    rw [List.foldl_cons, hstep, ih]
    · simp
    · simpa using h

/-- Shape of the state after a burst of submissions into an idle
limiter: the first `limit - active` tasks start, the rest queue in
submission order. -/
theorem foldl_submit_shape (limit : ℕ) (ts : List ℕ) (s : LimState)
    (hq : s.queue = []) (ha : s.active = s.running.length) :
    (ts.foldl (submit limit) s).active
        = s.active + (ts.take (limit - s.active)).length ∧
    (ts.foldl (submit limit) s).running
        = s.running ++ ts.take (limit - s.active) ∧
    (ts.foldl (submit limit) s).started
        = s.started ++ ts.take (limit - s.active) ∧
    (ts.foldl (submit limit) s).queue = ts.drop (limit - s.active) := by
  induction ts generalizing s with
  | nil => simp [hq]
  | cons t ts ih =>
    by_cases hlt : s.active < limit
    · have hstep : submit limit s t
          = { s with active := s.active + 1, running := s.running ++ [t],
                     started := s.started ++ [t] } := by
        unfold submit
        rw [if_pos hlt]
      have ih2 := ih { s with active := s.active + 1, running := s.running ++ [t],
                              started := s.started ++ [t] }
        (by simpa using hq) (by simp [ha])
      obtain ⟨i1, i2, i3, i4⟩ := ih2
      rw [List.foldl_cons, hstep]
      have htake : (t :: ts).take (limit - s.active)
          = t :: ts.take (limit - (s.active + 1)) := by
        have hone : limit - s.active = (limit - (s.active + 1)) + 1 := by omega
        rw [hone, List.take_succ_cons]
      have hdrop : (t :: ts).drop (limit - s.active)
          = ts.drop (limit - (s.active + 1)) := by
        have hone : limit - s.active = (limit - (s.active + 1)) + 1 := by omega
        rw [hone, List.drop_succ_cons]
      refine ⟨?_, ?_, ?_, ?_⟩
      · rw [i1, htake]
        simp
        omega
      · rw [i2, htake]
        simp
      · rw [i3, htake]
        simp
      · rw [i4, hdrop]
    · have hz : limit - s.active = 0 := by omega
      rw [foldl_submit_full limit (t :: ts) s hlt, hz]
      simp [hq]

/-- One settlement step of `drain`. -/
theorem drain_step (f : ℕ) (s : LimState) (t : ℕ) (rest : List ℕ)
    (h : s.running = t :: rest) :
    drain (f + 1) s = drain f (finish s t true) := by
  rw [drain.eq_def, h]

/-- Draining a limiter whose queue is backed by running tasks starts
every queued task, in queue order, and empties the limiter. -/
theorem drain_spec (fuel : ℕ) : ∀ s : LimState,
    s.queue.length + s.running.length ≤ fuel →
    (s.queue ≠ [] → s.running ≠ []) →
    (drain fuel s).started = s.started ++ s.queue ∧
    (drain fuel s).running = [] ∧ (drain fuel s).queue = [] := by
  induction fuel with
  | zero =>
    intro s hm hw
    have hq : s.queue = [] := by
      rw [← List.length_eq_zero]
      omega
    have hr : s.running = [] := by
      rw [← List.length_eq_zero]
      omega
    simp [drain, hq, hr]
  | succ f ih =>
    intro s hm hw
    cases hrun : s.running with
    | nil =>
      have hq : s.queue = [] := by
        by_contra hne2
        exact (hw hne2) hrun
      rw [drain.eq_def, hrun]
      simp [hq, hrun]
    | cons t rest =>
      rw [drain_step f s t rest hrun]
      cases hq : s.queue with
      | nil =>
        have hfin : finish s t true
            = { s with active := s.active - 1, running := rest,
                       results := s.results ++ [(t, true)] } := by
          unfold finish
          rw [hq]
          simp [hrun, List.erase_cons_head]
        have ihx := ih { s with active := s.active - 1, running := rest,
                                results := s.results ++ [(t, true)] }
          (by simp only [hq] at hm ⊢; simp only [hrun] at hm; simp at hm ⊢; omega)
          (by intro hc; exact absurd hq hc)
        rw [hfin]
        simpa [hq] using ihx
      | cons q qs =>
        have hfin : finish s t true
            = { s with active := s.active - 1 + 1, running := rest ++ [q],
                       queue := qs, started := s.started ++ [q],
                       results := s.results ++ [(t, true)] } := by
          unfold finish
          rw [hq]
          simp [hrun, List.erase_cons_head]
        have ihx := ih { s with active := s.active - 1 + 1, running := rest ++ [q],
                                queue := qs, started := s.started ++ [q],
                                results := s.results ++ [(t, true)] }
          (by simp only [hq, hrun] at hm; simp at hm ⊢; omega)
          (by intro hc2; simp)
        rw [hfin]
        obtain ⟨j1, j2, j3⟩ := ihx
        refine ⟨?_, j2, j3⟩
        rw [j1]
        simp [hq]

/-- C6: the limiter's invariant (the active counter counts running
tasks, never exceeds the limit 3, and a non-empty queue means all slots
are taken) holds initially and is preserved by every submission and
every settlement of a running task, so no schedule drives more than 3
tasks in flight; after `K > 3` simultaneous submissions the first 3 run
and the rest queue FIFO, and running the limiter to completion starts
all `K` tasks exactly in submission order. -/
theorem C6_limiter (ts : List ℕ) (hK : 3 < ts.length) :
    limInv 3 limInit ∧
    (∀ s t, limInv 3 s → limInv 3 (submit 3 s t)) ∧
    (∀ s t ok, limInv 3 s → t ∈ s.running → limInv 3 (finish s t ok)) ∧
    (∀ n : ℕ, ((ts.take n).foldl (submit 3) limInit).active ≤ 3) ∧
    (ts.foldl (submit 3) limInit).started = ts.take 3 ∧
    (ts.foldl (submit 3) limInit).queue = ts.drop 3 ∧
    (drain ts.length (ts.foldl (submit 3) limInit)).started = ts ∧
    (drain ts.length (ts.foldl (submit 3) limInit)).running = [] := by
  have hinit : limInv 3 limInit := ⟨rfl, Nat.zero_le 3, fun hc => absurd rfl hc⟩
  have ea : limInit.active = 0 := rfl
  have er : limInit.running = ([] : List ℕ) := rfl
  have es : limInit.started = ([] : List ℕ) := rfl
  obtain ⟨hact, hrun, hstart, hque⟩ := foldl_submit_shape 3 ts limInit rfl rfl
  rw [ea] at hact hrun hstart hque
  rw [er] at hrun
  rw [es] at hstart
  rw [Nat.sub_zero] at hact hrun hstart hque
  rw [List.nil_append] at hrun hstart
  have hstarted : (ts.foldl (submit 3) limInit).started = ts.take 3 := hstart
  have hqueue : (ts.foldl (submit 3) limInit).queue = ts.drop 3 := hque
  have htk3 : (ts.take 3).length = 3 := by
    rw [List.length_take]
    omega
  have htkne : ts.take 3 ≠ [] := by
    intro hz
    rw [hz] at htk3
    simp at htk3
  have hdr := drain_spec ts.length (ts.foldl (submit 3) limInit)
    (by
      rw [hqueue, hrun, htk3, List.length_drop]
      omega)
    (by
      intro _
      rw [hrun]
      exact htkne)
  refine ⟨hinit, fun s t h => submit_inv 3 s t h,
    fun s t ok h ht => finish_inv 3 s t ok h ht, ?_, hstarted, hqueue, ?_, hdr.2.1⟩
  · intro n
    obtain ⟨pact, -, -, -⟩ := foldl_submit_shape 3 (ts.take n) limInit rfl rfl
    rw [ea] at pact
    rw [pact, Nat.sub_zero, Nat.zero_add, List.length_take]
    omega
  · rw [hdr.1, hstarted, hqueue]
    exact List.take_append_drop 3 ts

/-- C6 witness: four simultaneous submissions through the limit-3 gate
all execute, in submission order. -/
theorem C6_witness :
    (drain 4 (([10, 20, 30, 40] : List ℕ).foldl (submit 3) limInit)).started
        = [10, 20, 30, 40] ∧
    (drain 4 (([10, 20, 30, 40] : List ℕ).foldl (submit 3) limInit)).running = [] :=
  ⟨(C6_limiter [10, 20, 30, 40] (by norm_num)).2.2.2.2.2.2.1,
   (C6_limiter [10, 20, 30, 40] (by norm_num)).2.2.2.2.2.2.2⟩

/-- Character substitution distributes over concatenation. -/
theorem replaceAll_append (c : Char) (rep : List Char) (a b : List Char) :
    replaceAll c rep (a ++ b) = replaceAll c rep a ++ replaceAll c rep b := by
  induction a with
  | nil => rfl
  | cons x xs ih => simp [replaceAll, ih]

/-- The two later substitutions leave a first-stage fragment equal to
its per-character escape. -/
theorem escChar_via (c : Char) :
    replaceAll '>' "&gt;".toList (replaceAll '<' "&lt;".toList
      (if c = '&' then "&amp;".toList else [c])) = escChar c := by
  by_cases h1 : c = '&'
  · subst h1
    rfl
  · rw [if_neg h1]
    unfold escChar
    rw [if_neg h1]
    by_cases h2 : c = '<'
    · subst h2
      rfl
    · rw [if_neg h2]
      by_cases h3 : c = '>'
      · subst h3
        rfl
      · rw [if_neg h3]
        simp [replaceAll, h2, h3]

/-- The three chained substitutions of `escapeXml` act per character. -/
theorem escapeXml_cons (c : Char) (s : List Char) :
    escapeXml (c :: s) = escChar c ++ escapeXml s := by
  have hamp : replaceAll '&' "&amp;".toList (c :: s)
      = (if c = '&' then "&amp;".toList else [c])
          ++ replaceAll '&' "&amp;".toList s := rfl
  unfold escapeXml
  rw [hamp, replaceAll_append, replaceAll_append, escChar_via]

/-- No escaped character yields a raw left angle bracket. -/
theorem escChar_no_lt (c : Char) : '<' ∉ escChar c := by
  unfold escChar
  split_ifs with h1 h2 h3
  · decide
  · decide
  · decide
  · simp
    intro hc
    exact h2 hc.symm

/-- No escaped character yields a raw right angle bracket. -/
theorem escChar_no_gt (c : Char) : '>' ∉ escChar c := by
  unfold escChar
  split_ifs with h1 h2 h3
  · decide
  · decide
  · decide
  · simp
    intro hc
    exact h3 hc.symm

/-- Escaped text contains no raw left angle bracket. -/
theorem escapeXml_no_lt (s : List Char) : '<' ∉ escapeXml s := by
  induction s with
  | nil => simp [escapeXml, replaceAll]
  | cons c s ih =>
    rw [escapeXml_cons, List.mem_append]
    rintro (h | h)
    · exact escChar_no_lt c h
    · exact ih h

/-- Escaped text contains no raw right angle bracket. -/
theorem escapeXml_no_gt (s : List Char) : '>' ∉ escapeXml s := by
  induction s with
  | nil => simp [escapeXml, replaceAll]
  | cons c s ih =>
    rw [escapeXml_cons, List.mem_append]
    rintro (h | h)
    · exact escChar_no_gt c h
    · exact ih h

/-- A non-ampersand head does not affect the entity check. -/
theorem ampOk_cons_ne (c : Char) (h : ¬ c = '&') (l : List Char) :
    ampOk (c :: l) = ampOk l := by
  simp [ampOk, h]

/-- Prepending the ampersand entity preserves the entity check. -/
theorem ampOk_amp (l : List Char) : ampOk ("&amp;".toList ++ l) = ampOk l := by
  show ampOk ('&' :: 'a' :: 'm' :: 'p' :: ';' :: l) = ampOk l
  simp [ampOk, List.take]

/-- Prepending the left-bracket entity preserves the entity check. -/
theorem ampOk_lt (l : List Char) : ampOk ("&lt;".toList ++ l) = ampOk l := by
  show ampOk ('&' :: 'l' :: 't' :: ';' :: l) = ampOk l
  simp [ampOk, List.take]

/-- Prepending the right-bracket entity preserves the entity check. -/
theorem ampOk_gt (l : List Char) : ampOk ("&gt;".toList ++ l) = ampOk l := by
  show ampOk ('&' :: 'g' :: 't' :: ';' :: l) = ampOk l
  simp [ampOk, List.take]

/-- Prepending any escaped character preserves the entity check. -/
theorem ampOk_escChar_append (c : Char) (l : List Char) :
    ampOk (escChar c ++ l) = ampOk l := by
  unfold escChar
  split_ifs with h1 h2 h3
  · exact ampOk_amp l
  · exact ampOk_lt l
  · exact ampOk_gt l
  · show ampOk (c :: l) = ampOk l
    exact ampOk_cons_ne c h1 l

/-- Escaped text passes the entity check. -/
theorem ampOk_escapeXml (s : List Char) : ampOk (escapeXml s) = true := by
  induction s with
  | nil => rfl
  | cons c s ih =>
    rw [escapeXml_cons, ampOk_escChar_append]
    exact ih

/-- C7 (amended): the `/api/tts-single` path embeds the caller text only
through `escapeXml`, whose output contains no raw `<` or `>` and whose
ampersands all start well-formed entities — the text-node position of
the document is well-formed for every input; the batch `/api/tts` path,
by contrast, embeds the text verbatim (see the counterexample). -/
theorem C7_single_escaped (locale voice text : List Char) :
    ssmlSingle locale voice text
        = ssmlSinglePre locale voice ++ escapeXml text ++ ssmlSinglePost ∧
    '<' ∉ escapeXml text ∧
    '>' ∉ escapeXml text ∧
    ampOk (escapeXml text) = true :=
  ⟨rfl, escapeXml_no_lt text, escapeXml_no_gt text, ampOk_escapeXml text⟩

/-- C7 counterexample: the batch `/api/tts` template embeds the text
"a<b" verbatim — unescaped, raw `<` and all — into the markup document,
so not every synthesis path escapes markup-significant characters. -/
theorem C7_ce :
    ssmlBatch "en".toList "v".toList ['a', '<', 'b']
        = ssmlBatchPre "en".toList "v".toList ++ ['a', '<', 'b'] ++ ssmlBatchPost ∧
    ('<' ∈ (['a', '<', 'b'] : List Char)) ∧
    escapeXml ['a', '<', 'b'] ≠ ['a', '<', 'b'] := by
  refine ⟨rfl, by decide, by decide⟩

/-- C8 (amended): with the sentinel "auto" the recognizer is called with
the bootstrap tag "en-US" and a separate identification call is issued
on the transcript; when that call yields a code the response carries its
table/heuristic locale expansion, but when it fails the bootstrap tag
itself is returned as `detectedLanguage`. -/
theorem C8_auto_flow (r : Option String) :
    (sttAuto r).recognitionLang = bootstrapTag ∧
    (sttAuto r).detectCalled = true ∧
    (∀ c, r = some c → (sttAuto r).detectedLanguage = expandLocale c) ∧
    (r = none → (sttAuto r).detectedLanguage = bootstrapTag) := by
  refine ⟨rfl, rfl, ?_, ?_⟩
  · rintro c rfl
    rfl
  · rintro rfl
    rfl

/-- C8 counterexample: an execution whose identification call fails
surfaces the bootstrap tag "en-US" as the detected language. -/
theorem C8_ce :
    (sttAuto none).recognitionLang = bootstrapTag ∧
    (sttAuto none).detectedLanguage = bootstrapTag :=
  ⟨rfl, rfl⟩

/-- C8 witness: a detection of "es" expands through the table, and a
failed detection falls back to the bootstrap tag. -/
theorem C8_witness :
    (sttAuto (some "es")).detectedLanguage = expandLocale "es" ∧
    (sttAuto none).detectedLanguage = bootstrapTag :=
  ⟨(C8_auto_flow (some "es")).2.2.1 "es" rfl, (C8_auto_flow none).2.2.2 rfl⟩

/-- C9 (amended): from `done`, starting a new capture is ignored — the
guard returns with the state still `done`; a new recording requires the
reset control first (`done` → `idle`), after which starting a capture
transitions to `listening` as it does from `idle`. -/
theorem C9_start_guard (g : Bool) :
    startRecording RecState.done g = RecState.done ∧
    startRecording (resetToIdle RecState.done) true = RecState.listening ∧
    startRecording RecState.idle true = RecState.listening := by
  cases g <;> exact ⟨rfl, rfl, rfl⟩

/-- C9 counterexample: starting a capture in state `done` does not reach
`listening`; the state stays `done`. -/
theorem C9_ce :
    startRecording RecState.done true ≠ RecState.listening ∧
    startRecording RecState.done true = RecState.done :=
  ⟨by decide, rfl⟩
